import Mathlib

/-!
# Verification of the `create-bmd` scaffolder (`src/bin/index.js`)

A shallow embedding of the mod-scaffolding CLI `create-bmd`.  Strings are
modelled as `List Char`; the synchronous filesystem is modelled by an
existence predicate (`fs.existsSync`), a read-only template store
(`fs.readFileSync` on template paths), and explicit lists of performed
writes.  Each JavaScript function of `src/bin/index.js` is translated to a
Lean definition of the same name.
-/

set_option maxRecDepth 40000

namespace CreateBMD

/-! ## Character classes

JavaScript regex character classes, expressed on code points.
`\s` (ECMA-262 WhiteSpace ∪ LineTerminator as matched by the `\s` class
escape) and `\w` (`[A-Za-z0-9_]`, via `Char.isAlphanum` which is exactly
ASCII alphanumeric). -/

/-- Code points matched by the JavaScript regex class escape `\s`. -/
def isJsSpace (c : Char) : Bool :=
  c.toNat == 9 || c.toNat == 10 || c.toNat == 11 || c.toNat == 12 ||
  c.toNat == 13 || c.toNat == 32 || c.toNat == 0xA0 || c.toNat == 0x1680 ||
  (decide (0x2000 ≤ c.toNat) && decide (c.toNat ≤ 0x200A)) ||
  c.toNat == 0x2028 || c.toNat == 0x2029 || c.toNat == 0x202F ||
  c.toNat == 0x205F || c.toNat == 0x3000 || c.toNat == 0xFEFF

/-- Characters matched by `[\s-_]` (the split pattern of `toCamelCase`):
whitespace, hyphen, or underscore.  (Inside a character class, `\s-_`
is the class escape `\s` plus the two literal characters.) -/
def isSepChar (c : Char) : Bool :=
  isJsSpace c || c == '-' || c == '_'

/-- Characters matched by `\w`: ASCII alphanumeric or underscore. -/
def isWordChar (c : Char) : Bool :=
  c.isAlphanum || c == '_'

/-! ## String utilities of the source -/

/-- JavaScript `String.prototype.trim`: strip leading and trailing
whitespace. -/
def jsTrim (s : List Char) : List Char :=
  ((s.dropWhile isJsSpace).reverse.dropWhile isJsSpace).reverse

/-- JavaScript `str.split(/…+/)` where the regex matches one run of
characters satisfying `p`: the string is cut at each maximal run of
`p`-characters; leading and trailing runs produce empty pieces, and the
result is never empty (`"".split` gives `[""]`). -/
def splitRunsAux (p : Char → Bool) : Nat → List Char → List (List Char)
  | _, [] => [[]]
  | 0, _ => [[]]
  | fuel + 1, c :: cs =>
    if p c then
      [] :: splitRunsAux p fuel (cs.dropWhile p)
    else
      (splitRunsAux p fuel cs).modifyHead (c :: ·)

/-- See `splitRunsAux`; the fuel `s.length` always suffices, since every
step consumes at least one character. -/
def splitRuns (p : Char → Bool) (s : List Char) : List (List Char) :=
  splitRunsAux p s.length s

/-- The `index === 0` branchless part of `toCamelCase`'s `map`:
uppercase the first character of an (already lowercased) word, using
the ASCII case map `Char.toUpper` — exact for ASCII words only;
`capitalizeWordJS` below carries JavaScript's Unicode full mapping. -/
def capitalizeWord (w : List Char) : List Char :=
  match w with
  | [] => []
  | c :: cs => Char.toUpper c :: cs

/-- The function `toCamelCase` from `src/bin/index.js` (lines 241-252):
trim, split on runs of spaces/hyphens/underscores, lowercase every
word, capitalize the first character of every word except the first,
and concatenate.  Case conversion here is the ASCII map
(`Char.toLower`/`Char.toUpper`), which agrees with JavaScript's
`toLowerCase`/`toUpperCase` exactly on ASCII input (proved as part of
`toCamelCase_shape`); `toCamelCaseJS` below models the JavaScript
Unicode behaviour, which diverges beyond ASCII. -/
def toCamelCase (s : List Char) : List Char :=
  match splitRuns isSepChar (jsTrim s) with
  | [] => []
  | w :: rest =>
    w.map Char.toLower ++
      (rest.map (fun u => capitalizeWord (u.map Char.toLower))).flatten

/-- JavaScript `String.prototype.toLowerCase` on one code point: the
Unicode full lowercase mapping, exact for code points below U+0100
(the Latin-1 capitals `À`–`Þ` except the multiplication sign shift by
+32; lowercasing has no expansions there); code points U+0100 and
above, to which none of the theorems below apply it, are returned
unchanged. -/
def jsLowerChar (c : Char) : List Char :=
  if 0xC0 ≤ c.toNat ∧ c.toNat ≤ 0xDE ∧ c.toNat ≠ 0xD7 then
    [Char.ofNat (c.toNat + 32)]
  else [Char.toLower c]

/-- JavaScript `String.prototype.toUpperCase` on one code point: the
Unicode full uppercase mapping, which can expand to several characters.
Exact for code points below U+0100: `ß` (U+00DF) expands to `"SS"`,
`ÿ` maps to `Ÿ` (U+0178), micro sign `µ` to Greek `Μ` (U+039C), the
letters `à`–`þ` except the division sign shift by −32; code points
U+0100 and above, to which none of the theorems below apply it, are
returned unchanged. -/
def jsUpperChar (c : Char) : List Char :=
  if c.toNat = 0xDF then ['S', 'S']
  else if c.toNat = 0xFF then [Char.ofNat 0x178]
  else if c.toNat = 0xB5 then [Char.ofNat 0x39C]
  else if 0xE0 ≤ c.toNat ∧ c.toNat ≤ 0xFE ∧ c.toNat ≠ 0xF7 then
    [Char.ofNat (c.toNat - 32)]
  else [Char.toUpper c]

/-- JavaScript `str.toLowerCase()` on a whole string. -/
def jsLowerString (w : List Char) : List Char :=
  (w.map jsLowerChar).flatten

/-- The capitalization step with JavaScript's case map:
`lowerWord.charAt(0).toUpperCase() + lowerWord.slice(1)`. -/
def capitalizeWordJS (w : List Char) : List Char :=
  match w with
  | [] => []
  | c :: cs => jsUpperChar c ++ cs

/-- The function `toCamelCase` with JavaScript's Unicode case maps instead of the
ASCII ones: the behaviour of the program on inputs beyond ASCII
(`toCamelCaseJS` and `toCamelCase` agree on ASCII input). -/
def toCamelCaseJS (s : List Char) : List Char :=
  match splitRuns isSepChar (jsTrim s) with
  | [] => []
  | w :: rest =>
    jsLowerString w ++
      (rest.map (fun u => capitalizeWordJS (jsLowerString u))).flatten

/-- The function `sanitizeFolderName` from `src/bin/index.js` (lines 260-262):
`name.replace(/\s+/g, "").replace(/[^\w-]/g, "")` — since both
replacements are by the empty string, each is removal of the matched
characters. -/
def sanitizeFolderName (name : List Char) : List Char :=
  (name.filter (fun c => ! isJsSpace c)).filter
    (fun c => isWordChar c || c == '-')

/-! ## Template renderer

`processTemplate` (lines 354-370) reads a template file and, for each
`(placeholder, value)` entry of the replacement object in insertion
order, performs `content.replace(new RegExp(`//placeholder//`, "g"),
value || "")`.  Every placeholder key used by the program (`name`,
`author`, `description`, `category`, `donation`) is alphanumeric, so the
regex matches the literal marker; a global regex replace scans left to
right, replacing non-overlapping occurrences without rescanning the
inserted replacement text.  A string replacement value is subject to
ECMA-262 `GetSubstitution`: its `$`-escapes are processed (`$$`, `$&`,
and the backquote/quote forms), so a value containing `$` is not
inserted verbatim. -/

/-- ECMA-262 `GetSubstitution` for a string replacement value against a
regex with no capture groups: scanning the value, `$$` inserts `$`,
`$&` inserts the matched text, `$` followed by U+0060 (backquote)
inserts the part of the subject before the match, `$` followed by
U+0027 (quote) inserts the part after the match; every other `$`
(including `$<…>` and `$n`, since there are no groups) is literal. -/
def getSubstitution (matched before after : List Char) :
    List Char → List Char
  | [] => []
  | c :: r =>
    if c = '$' then
      match r with
      | [] => ['$']
      | d :: r' =>
        if d = '$' then '$' :: getSubstitution matched before after r'
        else if d = '&' then matched ++ getSubstitution matched before after r'
        else if d.toNat = 96 then
          before ++ getSubstitution matched before after r'
        else if d.toNat = 39 then
          after ++ getSubstitution matched before after r'
        else '$' :: d :: getSubstitution matched before after r'
    else c :: getSubstitution matched before after r

/-- JavaScript `content.replace(/pat/g, rep)` for a literal pattern:
left-to-right, non-overlapping matches, each replaced by the
`GetSubstitution` of `rep` (never rescanned).  `rbefore` carries the
already-scanned part of the subject in reverse (so that stepping is
constant-time); reversed it is the text before the current position,
which `GetSubstitution` consults.  An empty pattern never fires (the
program's patterns `//k//` are never empty). -/
def replaceAllAux (pat rep : List Char) : Nat → List Char → List Char → List Char
  | _, _, [] => []
  | 0, _, s => s
  | fuel + 1, rbefore, c :: cs =>
    if pat.isPrefixOf (c :: cs) ∧ 0 < pat.length then
      getSubstitution pat rbefore.reverse (cs.drop (pat.length - 1)) rep ++
        replaceAllAux pat rep fuel (pat.reverse ++ rbefore)
          (cs.drop (pat.length - 1))
    else
      c :: replaceAllAux pat rep fuel (c :: rbefore) cs

/-- See `replaceAllAux`; the fuel `s.length` always suffices, since every
step consumes at least one character. -/
def replaceAll (pat rep : List Char) (s : List Char) : List Char :=
  replaceAllAux pat rep s.length [] s

/-- Position of the leftmost occurrence of `pat` in `s`: the first
index `i` with `pat` a prefix of `s.drop i` (characterized by
`firstMatchPos_spec`). -/
def firstMatchPos (pat : List Char) : List Char → Option Nat
  | [] => if pat.isEmpty then some 0 else none
  | c :: cs =>
    if pat.isPrefixOf (c :: cs) then some 0
    else (firstMatchPos pat cs).map (· + 1)

/-- Reference specification of the global replace, following the
claim's words: repeatedly find the leftmost occurrence of the pattern,
replace it by the `GetSubstitution` of the replacement value, and
continue after it.  `before` is the part of the original subject before
the current remainder.  Proved equal to the scanning `replaceAll` in
`processTemplate_substitution`. -/
def leftmostReplaceAux (pat rep : List Char) :
    Nat → List Char → List Char → List Char
  | 0, _, s => s
  | fuel + 1, before, s =>
    match firstMatchPos pat s with
    | none => s
    | some i =>
      s.take i ++
        getSubstitution pat (before ++ s.take i) (s.drop (i + pat.length))
          rep ++
        leftmostReplaceAux pat rep fuel (before ++ s.take i ++ pat)
          (s.drop (i + pat.length))

/-- See `leftmostReplaceAux`; for a non-empty pattern the fuel
`s.length` always suffices, since every step consumes at least one
character. -/
def leftmostReplace (pat rep : List Char) (s : List Char) : List Char :=
  leftmostReplaceAux pat rep s.length [] s

/-- The literal marker `//k//` built from a placeholder key `k`. -/
def marker (k : List Char) : List Char :=
  '/' :: '/' :: (k ++ ['/', '/'])

/-- A replacement object: keys in insertion order, each with its value;
`none` models a bound-but-`undefined` property (JS `value || ""`
replaces both `undefined` and `""` by the empty string). -/
abbrev RepMap : Type := List (List Char × Option (List Char))

/-- The substitution loop of `processTemplate`, on the already-read
template text. -/
def applyReplacements (content : List Char) (replacements : RepMap) :
    List Char :=
  replacements.foldl
    (fun acc kv => replaceAll (marker kv.1) (kv.2.getD []) acc) content

/-- A read-only store of template files: maps a template path (relative
to the bundle directory, the `__dirname` prefix being constant across
all reads) to its text, `none` when the read fails. -/
abbrev TemplateStore : Type := List Char → Option (List Char)

/-- The function `processTemplate` (lines 354-370): read the template, apply the
replacement loop; a failed read raises (modelled as `Except.error`
carrying the template path). -/
def processTemplate (ts : TemplateStore) (templatePath : List Char)
    (replacements : RepMap) : Except (List Char) (List Char) :=
  match ts templatePath with
  | none => .error templatePath
  | some content => .ok (applyReplacements content replacements)

/-! ## Data model: configuration, mod types, answers -/

/-- The persisted configuration object (`config.json`): all three keys
optional.  `none` models an absent key; JS treats an absent key and an
empty string alike in boolean contexts, which the definitions below
reproduce where the source tests truthiness. -/
structure Config where
  bmdPath : Option (List Char)
  author : Option (List Char)
  donation : Option (List Char)
deriving DecidableEq, Repr

/-- The empty configuration `{}`. -/
def emptyConfig : Config := ⟨none, none, none⟩

/-- The five mod types, the keys of `MOD_TYPES` (lines 26-56). -/
inductive ModType where
  | Action | Event | Automation | Theme | Translation
deriving DecidableEq, Repr

/-- One entry of the `MOD_TYPES` table. -/
structure ModTypeConfig where
  name : List Char
  requiresCategory : Bool
  defaultCategory : Option (List Char)
  outputPath : List Char
  isFolder : Bool
deriving DecidableEq, Repr

/-- The `MOD_TYPES` table (lines 26-56); absent JS properties
(`defaultCategory`, `isFolder`) are `none` / `false`. -/
def MOD_TYPES : ModType → ModTypeConfig
  | .Action =>
      ⟨"Action".toList, true, some "Message".toList,
        "AppData/Actions".toList, false⟩
  | .Event => ⟨"Event".toList, false, none, "AppData/Events".toList, false⟩
  | .Automation => ⟨"Automation".toList, false, none, "Automations".toList, true⟩
  | .Theme => ⟨"Theme".toList, false, none, "Themes".toList, true⟩
  | .Translation =>
      ⟨"Translation".toList, false, none, "Translations".toList, true⟩

/-- The validated operator input of one run: the final answer of every
prompt the run can ask.  `modType` is a choice from the `list`-typed
prompt whose choices are exactly the keys of `MOD_TYPES`; `modCategory`
is the answer the category prompt would return (used only when that
prompt is asked). -/
structure Answers where
  modName : List Char
  modType : ModType
  modDescription : List Char
  modAuthor : List Char
  modDonation : List Char
  modCategory : List Char
deriving DecidableEq, Repr

/-- The result of the first prompt pass, `promptForInitialInfo`
(lines 269-290). -/
structure InitialAnswers where
  modName : List Char
  modType : ModType
deriving DecidableEq, Repr

/-- The result of the second prompt pass, `promptForDetailedInfo`
(lines 299-345): the category question is added if and only if the
chosen type's `MOD_TYPES` entry has `requiresCategory`. -/
structure DetailedAnswers where
  modDescription : List Char
  modAuthor : List Char
  modDonation : List Char
  modCategory : Option (List Char)
deriving DecidableEq, Repr

/-- The prompt pass `promptForInitialInfo` (lines 269-290), as a function of the
operator's validated answers. -/
def promptForInitialInfo (a : Answers) : InitialAnswers :=
  ⟨a.modName, a.modType⟩

/-- The prompt pass `promptForDetailedInfo` (lines 299-345): asks (and hence answers)
the category question exactly when the chosen type requires one. -/
def promptForDetailedInfo (ia : InitialAnswers) (a : Answers) :
    DetailedAnswers :=
  ⟨a.modDescription, a.modAuthor, a.modDonation,
    if (MOD_TYPES ia.modType).requiresCategory then some a.modCategory
    else none⟩

/-- The merged `modInfo` object of `main` (lines 578-581). -/
structure ModInfo where
  modName : List Char
  modType : ModType
  modDescription : List Char
  modAuthor : List Char
  modDonation : List Char
  modCategory : Option (List Char)
deriving DecidableEq, Repr

/-- The merged object of the two prompt passes: the spread of
`initialAnswers` then `detailedAnswers`. -/
def mkModInfo (a : Answers) : ModInfo :=
  let ia := promptForInitialInfo a
  let da := promptForDetailedInfo ia a
  ⟨ia.modName, ia.modType, da.modDescription, da.modAuthor,
    da.modDonation, da.modCategory⟩

/-- The exact text of `src/bin/templates/Action.js`. -/
def actionTemplate : List Char :=
  ("/*\n    //name// mod by //author//\n    Licensed under MIT License\n\n    //description//\n*/\nmodule.exports = \x7b\n  data: \x7b\n    name: \"//name//\",\n  \x7d,\n  info: \x7b\n    source: \"https://github.com/RatWasHere/bmods/tree/master/Actions\",\n    creator: \"//author//\",\n    description: \"//description//\",\n    donate: \"//donation//\",\n  \x7d,\n  category: \"//category//\",\n  UI: [\n    // This is the UI for the Action\n    \x7b\n      element: \"input\",\n      storeAs: \"myinput\",\n      name: \"Input\",\n    \x7d,\n    \"-\",\n  ],\n\n  async run(values, interaction, client, bridge) \x7b\n    // This is where your code will go\n    // Documentation: https://github.com/RatWasHere/bmods/blob/master/MODS.md\n    console.log(\"Hello //name//!\");\n  \x7d,\n\x7d;").toList

/-- The Action template with the C6 substitutions performed. -/
def actionRenderedC6 : List Char :=
  ("/*\n    My Cool Mod mod by Alex\n    Licensed under MIT License\n\n    desc\n*/\nmodule.exports = \x7b\n  data: \x7b\n    name: \"My Cool Mod\",\n  \x7d,\n  info: \x7b\n    source: \"https://github.com/RatWasHere/bmods/tree/master/Actions\",\n    creator: \"Alex\",\n    description: \"desc\",\n    donate: \"\",\n  \x7d,\n  category: \"Message\",\n  UI: [\n    // This is the UI for the Action\n    \x7b\n      element: \"input\",\n      storeAs: \"myinput\",\n      name: \"Input\",\n    \x7d,\n    \"-\",\n  ],\n\n  async run(values, interaction, client, bridge) \x7b\n    // This is where your code will go\n    // Documentation: https://github.com/RatWasHere/bmods/blob/master/MODS.md\n    console.log(\"Hello My Cool Mod!\");\n  \x7d,\n\x7d;").toList

/-! ## Paths and the installation locator -/

/-- Join pieces with a separator (`[p]` gives `p`, `[]` gives `[]`). -/
def joinSep (sep : List Char) : List (List Char) → List Char
  | [] => []
  | [p] => p
  | p :: ps => p ++ sep ++ joinSep sep ps

/-- Node's `path.join` on already-normalized segments: empty segments
are skipped and the rest are joined with the separator (written `/`;
the platform separator is immaterial to the properties proved here). -/
def pathJoin (segs : List (List Char)) : List Char :=
  joinSep ['/'] (segs.filter (fun s => ! s.isEmpty))

/-- The table `COMMON_BMD_PATHS` (lines 18-21). -/
def COMMON_BMD_PATHS : List (List Char) :=
  ["C:\\Program Files (x86)\\Steam\\steamapps\\common\\Bot Maker For Discord".toList,
   "C:\\Program Files\\Steam\\steamapps\\common\\Bot Maker For Discord".toList]

/-- The probe loop of `findBMDInstallation`: first list element that
exists on disk. -/
def findFirstExisting (fs : List Char → Bool) :
    List (List Char) → Option (List Char)
  | [] => none
  | p :: ps => if fs p then some p else findFirstExisting fs ps

/-- The probe `findBMDInstallation` (lines 103-112): the first path of
`COMMON_BMD_PATHS` that `fs.existsSync` reports to exist, else `null`. -/
def findBMDInstallation (fs : List Char → Bool) : Option (List Char) :=
  findFirstExisting fs COMMON_BMD_PATHS

/-- The result of `getBMDPath`: the returned path, and the configuration
written by `saveConfig` during the call, if any. -/
structure BMDPathResult where
  path : List Char
  savedConfig : Option Config
deriving DecidableEq, Repr

/-- The resolver `getBMDPath` (lines 160-187).  `userPath` is the (validated,
trimmed) answer `promptForBMDPath` would return if the interactive
branch is reached.  The saved-path test `config.bmdPath &&
fs.existsSync(config.bmdPath)` treats an absent key and an empty string
alike (both falsy), hence the `getD []`. -/
def getBMDPath (fs : List Char → Bool) (config : Config)
    (userPath : List Char) : BMDPathResult :=
  let saved := config.bmdPath.getD []
  if saved ≠ [] ∧ fs saved then
    ⟨saved, none⟩
  else
    match findBMDInstallation fs with
    | some autoDetectedPath => ⟨autoDetectedPath, none⟩
    | none => ⟨userPath, some { config with bmdPath := some userPath }⟩

/-! ## Configuration store -/

/-- The loader `loadConfig` (lines 219-232).  `file` is the config file's content
(`none` when `fs.existsSync` is false); `parse` models `JSON.parse`,
`none` meaning a parse (or read) exception.  Returns the configuration
and whether the non-fatal warning was printed; every branch returns
normally — no branch aborts the run. -/
def loadConfig (file : Option (List Char))
    (parse : List Char → Option Config) : Config × Bool :=
  match file with
  | none => (emptyConfig, false)
  | some content =>
    match parse content with
    | some cfg => (cfg, false)
    | none => (emptyConfig, true)

/-! ## Mod creation

Each `createXxxMod` routine is modelled by the directories it creates,
the `(path, content)` file writes it performs in order, and the error
(a template path) that aborted it, if any.  Template paths are keyed
relative to the bundle directory (the constant `__dirname` prefix of
`path.join(__dirname, "templates", …)` is elided). -/

/-- The effects of one `createXxxMod` call. -/
structure CreateResult where
  dirs : List (List Char)
  files : List (List Char × List Char)
  err : Option (List Char)
deriving DecidableEq, Repr

/-- The routine `createActionMod` (lines 378-394). -/
def createActionMod (ts : TemplateStore) (bmdPath : List Char)
    (modInfo : ModInfo) : CreateResult :=
  let fileName := toCamelCase modInfo.modName ++ "_MOD.js".toList
  let templatePath := pathJoin ["templates".toList, "Action.js".toList]
  match processTemplate ts templatePath
      [("name".toList, some modInfo.modName),
       ("author".toList, some modInfo.modAuthor),
       ("description".toList, some modInfo.modDescription),
       ("category".toList, modInfo.modCategory),
       ("donation".toList, some modInfo.modDonation)] with
  | .error e => ⟨[], [], some e⟩
  | .ok content =>
      ⟨[], [(pathJoin [bmdPath, (MOD_TYPES .Action).outputPath, fileName],
              content)], none⟩

/-- The routine `createEventMod` (lines 402-417). -/
def createEventMod (ts : TemplateStore) (bmdPath : List Char)
    (modInfo : ModInfo) : CreateResult :=
  let fileName := toCamelCase modInfo.modName ++ "_MOD.js".toList
  let templatePath := pathJoin ["templates".toList, "Event.js".toList]
  match processTemplate ts templatePath
      [("name".toList, some modInfo.modName),
       ("author".toList, some modInfo.modAuthor),
       ("description".toList, some modInfo.modDescription),
       ("donation".toList, some modInfo.modDonation)] with
  | .error e => ⟨[], [], some e⟩
  | .ok content =>
      ⟨[], [(pathJoin [bmdPath, (MOD_TYPES .Event).outputPath, fileName],
              content)], none⟩

/-- The shared replacement object of the folder-based mod types
(no `category` slot). -/
def folderModReplacements (modInfo : ModInfo) : RepMap :=
  [("name".toList, some modInfo.modName),
   ("author".toList, some modInfo.modAuthor),
   ("description".toList, some modInfo.modDescription),
   ("donation".toList, some modInfo.modDonation)]

/-- The template list of `createAutomationMod` (lines 437-442):
output file name paired with template path. -/
def automationTemplates : List (List Char × List Char) :=
  [("data.json".toList, "Automation/data.json".toList),
   ("main.js".toList, "Automation/main.js".toList),
   ("startup.js".toList, "Automation/startup.js".toList),
   ("startup_info.json".toList, "Automation/startup_info.json".toList)]

/-- The `templates.forEach` loop of `createAutomationMod`: process and
write each template in order; an exception aborts the loop, leaving the
earlier writes in place. -/
def processTemplateList (ts : TemplateStore) (outputPath : List Char)
    (reps : RepMap) : List (List Char × List Char) →
      List (List Char × List Char) × Option (List Char)
  | [] => ([], none)
  | (fname, tpl) :: rest =>
    match processTemplate ts (pathJoin ["templates".toList, tpl]) reps with
    | .error e => ([], some e)
    | .ok content =>
      let r := processTemplateList ts outputPath reps rest
      ((pathJoin [outputPath, fname], content) :: r.1, r.2)

/-- The routine `createAutomationMod` (lines 425-459): `mkdirSync` the (slugged)
folder, then render and write the four templates. -/
def createAutomationMod (ts : TemplateStore) (bmdPath : List Char)
    (modInfo : ModInfo) : CreateResult :=
  let folderName := sanitizeFolderName modInfo.modName
  let outputPath :=
    pathJoin [bmdPath, (MOD_TYPES .Automation).outputPath, folderName]
  let r := processTemplateList ts outputPath
    (folderModReplacements modInfo) automationTemplates
  ⟨[outputPath], r.1, r.2⟩

/-- The routine `createThemeMod` (lines 467-491): `mkdirSync` the slugged folder,
render `Theme/data.json`, read `Theme/theme.css` verbatim, then write
both (both reads precede both writes in the source). -/
def createThemeMod (ts : TemplateStore) (bmdPath : List Char)
    (modInfo : ModInfo) : CreateResult :=
  let folderName := sanitizeFolderName modInfo.modName
  let outputPath := pathJoin [bmdPath, (MOD_TYPES .Theme).outputPath, folderName]
  let dataTemplate := pathJoin ["templates".toList, "Theme/data.json".toList]
  match processTemplate ts dataTemplate (folderModReplacements modInfo) with
  | .error e => ⟨[outputPath], [], some e⟩
  | .ok dataContent =>
    let cssTemplate := pathJoin ["templates".toList, "Theme/theme.css".toList]
    match ts cssTemplate with
    | none => ⟨[outputPath], [], some cssTemplate⟩
    | some cssContent =>
        ⟨[outputPath],
          [(pathJoin [outputPath, "data.json".toList], dataContent),
           (pathJoin [outputPath, "theme.css".toList], cssContent)], none⟩

/-- The routine `createTranslationMod` (lines 499-527): like `createThemeMod` with
`Translation/data.json` and a verbatim `Translation/strings.json`. -/
def createTranslationMod (ts : TemplateStore) (bmdPath : List Char)
    (modInfo : ModInfo) : CreateResult :=
  let folderName := sanitizeFolderName modInfo.modName
  let outputPath :=
    pathJoin [bmdPath, (MOD_TYPES .Translation).outputPath, folderName]
  let dataTemplate :=
    pathJoin ["templates".toList, "Translation/data.json".toList]
  match processTemplate ts dataTemplate (folderModReplacements modInfo) with
  | .error e => ⟨[outputPath], [], some e⟩
  | .ok dataContent =>
    let stringsTemplate :=
      pathJoin ["templates".toList, "Translation/strings.json".toList]
    match ts stringsTemplate with
    | none => ⟨[outputPath], [], some stringsTemplate⟩
    | some stringsContent =>
        ⟨[outputPath],
          [(pathJoin [outputPath, "data.json".toList], dataContent),
           (pathJoin [outputPath, "strings.json".toList], stringsContent)],
          none⟩

/-- The dispatcher `createMod` (lines 536-556): dispatch on the mod type.  With the
closed `ModType` the `default: throw` branch of the source is
unreachable, as the source comment intends. -/
def createMod (ts : TemplateStore) (modType : ModType) (bmdPath : List Char)
    (modInfo : ModInfo) : CreateResult :=
  match modType with
  | .Action => createActionMod ts bmdPath modInfo
  | .Event => createEventMod ts bmdPath modInfo
  | .Automation => createAutomationMod ts bmdPath modInfo
  | .Theme => createThemeMod ts bmdPath modInfo
  | .Translation => createTranslationMod ts bmdPath modInfo

/-! ## The run (`main`, lines 561-640)

The run is modelled from the point where every prompt has been answered
(operator cancellation, which the `catch` maps to `process.exit(0)`, and
failures of `saveConfig`, which only warn, are outside this model).
Uncaught exceptions during generation reach the `catch` and
`process.exit(1)`; normal completion — including the early `return` of
the installation-not-found branch — ends the process with exit code 0. -/

/-- The externally observable inputs of one run. -/
structure Env where
  fsExists : List Char → Bool
  configFile : Option (List Char)
  parse : List Char → Option Config
  answers : Answers
  tstore : TemplateStore

/-- The externally observable outcome of one run. -/
structure RunResult where
  exitCode : Nat
  configWrites : List Config
  modDirs : List (List Char)
  modWrites : List (List Char × List Char)
  usedPath : Option (List Char)
deriving DecidableEq, Repr

/-- The entry point `main` (lines 561-640): load the configuration, run the two prompt
passes, merge, save the updated configuration, then call
`findBMDInstallation` — on `null`, print the error and `return`
(exit code 0, nothing generated); otherwise generate, exiting 1 if
generation throws. -/
def runMain (env : Env) : RunResult :=
  let config := (loadConfig env.configFile env.parse).1
  let modInfo := mkModInfo env.answers
  let updatedConfig : Config :=
    { config with author := some modInfo.modAuthor,
                  donation := some modInfo.modDonation }
  match findBMDInstallation env.fsExists with
  | none =>
      { exitCode := 0, configWrites := [updatedConfig], modDirs := [],
        modWrites := [], usedPath := none }
  | some bmdPath =>
      let r := createMod env.tstore modInfo.modType bmdPath modInfo
      { exitCode := if r.err.isSome then 1 else 0,
        configWrites := [updatedConfig], modDirs := r.dirs,
        modWrites := r.files, usedPath := some bmdPath }

/-! ## Concrete sample inputs

Closed values used to instantiate the theorems below on concrete runs. -/

/-- A set of validated answers (each one a value its prompt accepts). -/
def sampleAnswers : Answers :=
  ⟨"My Mod".toList, .Action, "Created with create-bmd".toList,
    "Your Name".toList, [], "Message".toList⟩

/-- A run on a machine where no filesystem path exists at all. -/
def envNoInstall : Env :=
  ⟨fun _ => false, none, fun _ => none, sampleAnswers, fun _ => none⟩

/-- A run where every path exists but every template read fails. -/
def envBadTemplate : Env :=
  ⟨fun _ => true, none, fun _ => none, sampleAnswers, fun _ => none⟩

/-- A custom install location outside `COMMON_BMD_PATHS`. -/
def savedOnlyPath : List Char :=
  "D:\\Games\\Bot Maker For Discord".toList

/-- A configuration whose saved override points at `savedOnlyPath`. -/
def cfgSaved : Config := ⟨some savedOnlyPath, none, none⟩

/-- A run where only the saved override path exists on disk and the
config file parses to `cfgSaved`. -/
def envSaved : Env :=
  ⟨fun p => p == savedOnlyPath, some [], fun _ => some cfgSaved,
    sampleAnswers, fun _ => none⟩

/-- The answers of the worked example: mod name `"My Cool Mod"`, type
`Action`, author `"Alex"`, description `"desc"`, category `"Message"`,
donation `""`. -/
def answersC6 : Answers :=
  ⟨"My Cool Mod".toList, .Action, "desc".toList, "Alex".toList, [],
    "Message".toList⟩

/-- A template store holding exactly the bundled Action template. -/
def actionOnlyStore : TemplateStore := fun p =>
  if p = "templates/Action.js".toList then some actionTemplate else none

/-- A `ModInfo` whose name has no slug-legal character at all. -/
def modInfoBang : ModInfo :=
  ⟨"!!!".toList, .Automation, "d".toList, "a".toList, [], none⟩

/-- Executable occurrence test: does `pat` occur as a contiguous
subsequence of `s`?  (Proved equivalent to `List.IsInfix` below.) -/
def containsSeq (pat : List Char) : List Char → Bool
  | [] => pat.isEmpty
  | c :: cs => pat.isPrefixOf (c :: cs) || containsSeq pat cs

/-! ## Recursion equations

`splitRunsAux` and `replaceAllAux` take their step count as explicit
fuel so that they compute by structural recursion; here the fuel is
proved irrelevant (any fuel at least the input length gives the same
result), yielding the natural recursion equations for the wrappers. -/

theorem replaceAllAux_fuel (pat rep : List Char) :
    ∀ (f g : Nat) (rb s : List Char), s.length ≤ f → s.length ≤ g →
      replaceAllAux pat rep f rb s = replaceAllAux pat rep g rb s := by
  intro f
  induction f with
  | zero =>
    intro g rb s hf _
    have hs : s = [] := List.length_eq_zero.mp (Nat.le_zero.mp hf)
    subst hs
    cases g <;> rfl
  | succ f ih =>
    intro g rb s hf hg
    cases s with
    | nil => cases g <;> rfl
    | cons c cs =>
      cases g with
      | zero => exact absurd hg (by simp)
      | succ g =>
        have hf' : cs.length ≤ f := Nat.le_of_succ_le_succ hf
        have hg' : cs.length ≤ g := Nat.le_of_succ_le_succ hg
        by_cases h : pat.isPrefixOf (c :: cs) ∧ 0 < pat.length
        · simp only [replaceAllAux, if_pos h]
          rw [ih g _ (cs.drop (pat.length - 1))
            (Nat.le_trans (by simp) hf') (Nat.le_trans (by simp) hg')]
        · simp only [replaceAllAux, if_neg h]
          rw [ih g _ cs hf' hg']

theorem splitRunsAux_fuel (p : Char → Bool) :
    ∀ (f g : Nat) (s : List Char), s.length ≤ f → s.length ≤ g →
      splitRunsAux p f s = splitRunsAux p g s := by
  intro f
  induction f with
  | zero =>
    intro g s hf _
    have hs : s = [] := List.length_eq_zero.mp (Nat.le_zero.mp hf)
    subst hs
    cases g <;> rfl
  | succ f ih =>
    intro g s hf hg
    cases s with
    | nil => cases g <;> rfl
    | cons c cs =>
      cases g with
      | zero => exact absurd hg (by simp)
      | succ g =>
        have hf' : cs.length ≤ f := Nat.le_of_succ_le_succ hf
        have hg' : cs.length ≤ g := Nat.le_of_succ_le_succ hg
        by_cases h : p c
        · simp only [splitRunsAux, if_pos h]
          rw [ih g (cs.dropWhile p)
            (Nat.le_trans (List.dropWhile_sublist p (l := cs)).length_le hf')
            (Nat.le_trans (List.dropWhile_sublist p (l := cs)).length_le hg')]
        · simp only [splitRunsAux, if_neg h]
          rw [ih g cs hf' hg']

theorem splitRuns_cons (p : Char → Bool) (c : Char) (cs : List Char) :
    splitRuns p (c :: cs) =
      if p c then
        [] :: splitRuns p (cs.dropWhile p)
      else
        (splitRuns p cs).modifyHead (c :: ·) := by
  show splitRunsAux p (cs.length + 1) (c :: cs) = _
  by_cases h : p c
  · simp only [splitRunsAux, if_pos h, splitRuns]
    rw [splitRunsAux_fuel p cs.length (cs.dropWhile p).length (cs.dropWhile p)
      (List.dropWhile_sublist p (l := cs)).length_le (Nat.le_refl _)]
  · simp only [splitRunsAux, if_neg h, splitRuns]

/-! ## Properties of the global replace -/

theorem firstMatchPos_nil (pat : List Char) (hpat : pat ≠ []) :
    firstMatchPos pat [] = none := by
  simp [firstMatchPos, List.isEmpty_eq_false.mpr hpat]

/-- The search `firstMatchPos` finds exactly the leftmost occurrence: a returned
index is a match preceded by no match, and `none` means no index
matches. -/
theorem firstMatchPos_spec (pat : List Char) :
    ∀ s : List Char,
      (∀ i, firstMatchPos pat s = some i →
        pat <+: s.drop i ∧ ∀ j < i, ¬ pat <+: s.drop j) ∧
      (firstMatchPos pat s = none → ∀ j, ¬ pat <+: s.drop j) := by
  intro s
  induction s with
  | nil =>
    constructor
    · intro i h
      by_cases hp : pat.isEmpty
      · simp only [firstMatchPos, if_pos hp, Option.some_inj] at h
        subst h
        have hpe : pat = [] := by simpa using hp
        subst hpe
        exact ⟨List.nil_prefix, fun j hj => absurd hj (Nat.not_lt_zero j)⟩
      · simp [firstMatchPos, hp] at h
    · intro _ j hpre
      rw [List.drop_nil] at hpre
      have hpe : pat = [] := List.prefix_nil.mp hpre
      subst hpe
      simp [firstMatchPos] at *
  | cons c cs ih =>
    constructor
    · intro i h
      by_cases hp : pat.isPrefixOf (c :: cs)
      · simp only [firstMatchPos, if_pos hp, Option.some_inj] at h
        subst h
        refine ⟨by simpa using List.isPrefixOf_iff_prefix.mp hp, ?_⟩
        intro j hj
        exact absurd hj (Nat.not_lt_zero j)
      · simp only [firstMatchPos, if_neg hp] at h
        cases hfm : firstMatchPos pat cs with
        | none => rw [hfm] at h; simp at h
        | some i' =>
          rw [hfm] at h
          simp at h
          subst h
          obtain ⟨h1, h2⟩ := ih.1 i' hfm
          refine ⟨by simpa using h1, ?_⟩
          intro j hj
          cases j with
          | zero =>
            intro hcon
            exact hp ( List.isPrefixOf_iff_prefix.mpr (by simpa using hcon))
          | succ j' =>
            have := h2 j' (by omega)
            simpa using this
    · intro h j
      by_cases hp : pat.isPrefixOf (c :: cs)
      · simp [firstMatchPos, hp] at h
      · simp only [firstMatchPos, if_neg hp] at h
        have h' : firstMatchPos pat cs = none := by
          cases hfm : firstMatchPos pat cs with
          | none => rfl
          | some i => rw [hfm] at h; simp at h
        cases j with
        | zero =>
          intro hcon
          exact hp ( List.isPrefixOf_iff_prefix.mpr (by simpa using hcon))
        | succ j' =>
          have := ih.2 h' j'
          simpa using this

/-- A text without a match is returned unchanged by the scan. -/
theorem replaceAllAux_of_no_match (pat rep : List Char) :
    ∀ (s rb : List Char) (f : Nat), firstMatchPos pat s = none →
      replaceAllAux pat rep f rb s = s := by
  intro s
  induction s with
  | nil => intro rb f _; cases f <;> rfl
  | cons c cs ih =>
    intro rb f h
    by_cases hp : pat.isPrefixOf (c :: cs)
    · simp [firstMatchPos, hp] at h
    · simp only [firstMatchPos, if_neg hp] at h
      have h' : firstMatchPos pat cs = none := by
        cases hfm : firstMatchPos pat cs with
        | none => rfl
        | some i => rw [hfm] at h; simp at h
      cases f with
      | zero => rfl
      | succ f =>
        have hcond : ¬ (pat.isPrefixOf (c :: cs) ∧ 0 < pat.length) :=
          fun hc => hp hc.1
        simp only [replaceAllAux, if_neg hcond]
        rw [ih (c :: rb) f h']

theorem leftmostReplaceAux_fuel (pat rep : List Char) (hpat : pat ≠ []) :
    ∀ (f g : Nat) (b s : List Char), s.length ≤ f → s.length ≤ g →
      leftmostReplaceAux pat rep f b s = leftmostReplaceAux pat rep g b s := by
  intro f
  induction f with
  | zero =>
    intro g b s hf _
    have hs : s = [] := List.length_eq_zero.mp (Nat.le_zero.mp hf)
    subst hs
    cases g with
    | zero => rfl
    | succ g => simp [leftmostReplaceAux, firstMatchPos_nil pat hpat]
  | succ f ih =>
    intro g b s hf hg
    cases g with
    | zero =>
      have hs : s = [] := List.length_eq_zero.mp (Nat.le_zero.mp hg)
      subst hs
      simp [leftmostReplaceAux, firstMatchPos_nil pat hpat]
    | succ g =>
      cases hfm : firstMatchPos pat s with
      | none => simp only [leftmostReplaceAux, hfm]
      | some i =>
        have hplen : 0 < pat.length := List.length_pos.mpr hpat
        simp only [leftmostReplaceAux, hfm]
        rw [ih g (b ++ s.take i ++ pat) (s.drop (i + pat.length))
          (by rw [List.length_drop]; omega)
          (by rw [List.length_drop]; omega)]

/-- The scan consumes `i` unmatched characters and fires at the
leftmost match. -/
theorem replaceAllAux_walk (pat rep : List Char) (hpat : pat ≠ []) :
    ∀ (i : Nat) (s rb : List Char), firstMatchPos pat s = some i →
      replaceAllAux pat rep s.length rb s =
        s.take i ++
          getSubstitution pat (rb.reverse ++ s.take i)
            (s.drop (i + pat.length)) rep ++
          replaceAllAux pat rep (s.drop (i + pat.length)).length
            (pat.reverse ++ (s.take i).reverse ++ rb)
            (s.drop (i + pat.length)) := by
  intro i
  induction i with
  | zero =>
    intro s rb h
    cases s with
    | nil => rw [firstMatchPos_nil pat hpat] at h; exact absurd h (by simp)
    | cons c cs =>
      have hp : pat.isPrefixOf (c :: cs) := by
        by_cases hp : pat.isPrefixOf (c :: cs)
        · exact hp
        · simp only [firstMatchPos, if_neg hp] at h
          cases hfm : firstMatchPos pat cs with
          | none => rw [hfm] at h; simp at h
          | some i' => rw [hfm] at h; simp at h
      have hlen : 0 < pat.length := List.length_pos.mpr hpat
      have hdrop : cs.drop (pat.length - 1) = (c :: cs).drop (0 + pat.length) := by
        obtain ⟨p0, pt, rfl⟩ : ∃ p0 pt, pat = p0 :: pt := by
          cases pat with
          | nil => exact absurd rfl hpat
          | cons p0 pt => exact ⟨p0, pt, rfl⟩
        simp
      show replaceAllAux pat rep (cs.length + 1) rb (c :: cs) = _
      simp only [replaceAllAux, if_pos (And.intro hp hlen)]
      rw [hdrop]
      simp only [List.take_zero, List.append_nil, List.nil_append,
        List.reverse_nil]
      rw [replaceAllAux_fuel pat rep cs.length
        ((c :: cs).drop (0 + pat.length)).length _ _
        (by rw [List.length_drop]; simp; omega) (Nat.le_refl _)]
  | succ i ih =>
    intro s rb h
    cases s with
    | nil => rw [firstMatchPos_nil pat hpat] at h; exact absurd h (by simp)
    | cons c cs =>
      have hp : ¬ pat.isPrefixOf (c :: cs) := by
        intro hp
        simp [firstMatchPos, hp] at h
      have hfm : firstMatchPos pat cs = some i := by
        simp only [firstMatchPos, if_neg hp] at h
        cases hfm : firstMatchPos pat cs with
        | none => rw [hfm] at h; simp at h
        | some i2 =>
          rw [hfm] at h
          simp at h
          rw [h]
      have hcond : ¬ (pat.isPrefixOf (c :: cs) ∧ 0 < pat.length) :=
        fun hc => hp hc.1
      show replaceAllAux pat rep (cs.length + 1) rb (c :: cs) = _
      simp only [replaceAllAux, if_neg hcond]
      rw [ih cs (c :: rb) hfm]
      rw [show i + 1 + pat.length = (i + pat.length) + 1 from by omega]
      simp [List.take_succ_cons, List.drop_succ_cons, List.reverse_cons,
        List.append_assoc]

/-- The character-by-character scan equals the leftmost-occurrence
iteration. -/
theorem replaceAllAux_eq_leftmost (pat rep : List Char) (hpat : pat ≠ []) :
    ∀ (n : Nat) (s rb : List Char), s.length ≤ n →
      replaceAllAux pat rep s.length rb s =
        leftmostReplaceAux pat rep s.length rb.reverse s := by
  intro n
  induction n with
  | zero =>
    intro s rb h
    have hs : s = [] := List.length_eq_zero.mp (Nat.le_zero.mp h)
    subst hs
    rfl
  | succ n ih =>
    intro s rb hs
    cases hfm : firstMatchPos pat s with
    | none =>
      rw [replaceAllAux_of_no_match pat rep s rb s.length hfm]
      cases s with
      | nil => rfl
      | cons c cs =>
        show _ = leftmostReplaceAux pat rep (cs.length + 1) rb.reverse (c :: cs)
        simp only [leftmostReplaceAux, hfm]
    | some i =>
      rw [replaceAllAux_walk pat rep hpat i s rb hfm]
      cases s with
      | nil => rw [firstMatchPos_nil pat hpat] at hfm; exact absurd hfm (by simp)
      | cons c cs =>
        have hplen : 0 < pat.length := List.length_pos.mpr hpat
        have htail : ((c :: cs).drop (i + pat.length)).length ≤ n := by
          rw [List.length_drop]
          have : (c :: cs).length = cs.length + 1 := rfl
          omega
        rw [ih ((c :: cs).drop (i + pat.length))
          (pat.reverse ++ ((c :: cs).take i).reverse ++ rb) htail]
        show _ = leftmostReplaceAux pat rep (cs.length + 1) rb.reverse (c :: cs)
        conv_rhs => rw [leftmostReplaceAux]
        simp only [hfm]
        rw [show (pat.reverse ++ ((c :: cs).take i).reverse ++ rb).reverse =
          rb.reverse ++ (c :: cs).take i ++ pat from by
            simp [List.reverse_append, List.append_assoc]]
        rw [leftmostReplaceAux_fuel pat rep hpat
          ((c :: cs).drop (i + pat.length)).length cs.length _ _
          (Nat.le_refl _) (by rw [List.length_drop]; simp; omega)]

/-- The global replace, as the program performs it, equals the
leftmost-occurrence specification. -/
theorem replaceAll_eq_leftmost (pat rep s : List Char) (hpat : pat ≠ []) :
    replaceAll pat rep s = leftmostReplace pat rep s := by
  have h := replaceAllAux_eq_leftmost pat rep hpat s.length s [] (Nat.le_refl _)
  simpa [replaceAll, leftmostReplace] using h

/-- The `GetSubstitution` of a value without `$` is the value itself. -/
theorem getSubstitution_of_no_dollar (matched before after : List Char) :
    ∀ v : List Char, (∀ c ∈ v, c ≠ '$') →
      getSubstitution matched before after v = v := by
  intro v
  induction v with
  | nil => intro _; rfl
  | cons c r ih =>
    intro hv
    have hc : c ≠ '$' := hv c (List.mem_cons_self c r)
    rw [getSubstitution.eq_def]
    dsimp only
    rw [if_neg hc, ih (fun d hd => hv d (List.mem_cons_of_mem c hd))]

/-- The substitution loop is the entrywise leftmost-occurrence
replacement, entry by entry in map order. -/
theorem applyReplacements_eq_leftmost (reps : RepMap) :
    ∀ text : List Char,
      applyReplacements text reps =
        reps.foldl
          (fun acc kv => leftmostReplace (marker kv.1) (kv.2.getD []) acc)
          text := by
  induction reps with
  | nil => intro text; rfl
  | cons kv rest ih =>
    intro text
    show applyReplacements
        (replaceAll (marker kv.1) (kv.2.getD []) text) rest = _
    rw [ih, replaceAll_eq_leftmost _ _ _ (by simp [marker])]
    rfl

theorem replaceAllAux_of_no_occurrence (pat rep : List Char) :
    ∀ (s rb : List Char) (f : Nat), ¬ pat <:+: s →
      replaceAllAux pat rep f rb s = s := by
  intro s
  induction s with
  | nil => intro rb f _; cases f <;> rfl
  | cons c cs ih =>
    intro rb f h
    cases f with
    | zero => rfl
    | succ f =>
      rw [show replaceAllAux pat rep (f + 1) rb (c :: cs) =
        if pat.isPrefixOf (c :: cs) ∧ 0 < pat.length then
          getSubstitution pat rb.reverse (cs.drop (pat.length - 1)) rep ++
            replaceAllAux pat rep f (pat.reverse ++ rb)
              (cs.drop (pat.length - 1))
        else c :: replaceAllAux pat rep f (c :: rb) cs from rfl]
      rw [if_neg ?_]
      · rw [ih (c :: rb) f (fun hi => h ( List.infix_cons hi))]
      · rintro ⟨hpre, -⟩
        exact h (List.IsPrefix.isInfix ( List.isPrefixOf_iff_prefix.mp hpre))

/-- A pattern that occurs nowhere in `s` replaces nothing. -/
theorem replaceAll_of_no_occurrence (pat rep s : List Char)
    (h : ¬ pat <:+: s) : replaceAll pat rep s = s :=
  replaceAllAux_of_no_occurrence pat rep s [] s.length h

/-- A replacement loop none of whose markers occurs in the text leaves
the text untouched. -/
theorem applyReplacements_of_no_occurrence (text : List Char) :
    ∀ reps : RepMap, (∀ kv ∈ reps, ¬ marker kv.1 <:+: text) →
      applyReplacements text reps = text := by
  intro reps
  induction reps with
  | nil => intro _; rfl
  | cons kv rest ih =>
    intro h
    show applyReplacements
      (replaceAll (marker kv.1) (kv.2.getD []) text) rest = text
    rw [replaceAll_of_no_occurrence _ _ _ (h kv (List.mem_cons_self kv rest))]
    exact ih (fun kv2 h2 => h kv2 (List.mem_cons_of_mem kv h2))

/-! ## Claim C3: template placeholder substitution -/

/-- Counterexample to C3 as stated.  A string replacement value is
subject to ECMA-262 `GetSubstitution`, so a value containing `$` is not
inserted verbatim: the program inserts the value `"$$"` as `"$"`, the
value `"$&"` re-inserts the marker itself (leaving the text unchanged),
and the backquote escape splices in the text before the match — in each
case the marker occurrence is not replaced by the value. -/
theorem substitution_dollar_counterexample :
    applyReplacements "//name//".toList [("name".toList, some "$$".toList)] =
      "$".toList ∧
    "$".toList ≠ "$$".toList ∧
    applyReplacements "//name//".toList [("name".toList, some "$&".toList)] =
      "//name//".toList ∧
    applyReplacements "a//name//b".toList
        [("name".toList, some "$`X".toList)] = "aaXb".toList ∧
    "aaXb".toList ≠ "a".toList ++ "$`X".toList ++ "b".toList := by
  decide

/-- C3 (amended).  For every template text and replacement map,
`processTemplate` substitutes, for each `(placeholder, value)` pair of
the map in order, every (leftmost, non-overlapping) occurrence of the
literal marker `//placeholder//` by the JavaScript `GetSubstitution` of
the value — the value itself when it contains no `$`, the empty string
when the value is absent/`undefined` — and any marker whose placeholder
key is not in the map is left untouched.  Stated as: (1)
`processTemplate` renders the read text through the substitution loop;
(2) the loop is, entry by entry in map order, the global replace of
that entry's marker; (3) the global replace equals the reference
`leftmostReplace`, which repeatedly replaces the leftmost marker
occurrence (`firstMatchPos`, characterized by `firstMatchPos_spec`) by
the `GetSubstitution` of the value and continues after it; (4) the
`GetSubstitution` of a `$`-free value is the value itself; (5) a text
in which no in-map marker occurs — in particular one holding only
markers of keys outside the map — is returned verbatim. -/
theorem processTemplate_substitution :
    (∀ (ts : TemplateStore) (path text : List Char) (reps : RepMap),
        ts path = some text →
        processTemplate ts path reps = .ok (applyReplacements text reps)) ∧
    (∀ (text : List Char) (reps : RepMap),
        applyReplacements text reps =
          reps.foldl
            (fun acc kv => leftmostReplace (marker kv.1) (kv.2.getD []) acc)
            text) ∧
    (∀ pat rep s : List Char, pat ≠ [] →
        replaceAll pat rep s = leftmostReplace pat rep s) ∧
    (∀ matched before after v : List Char, (∀ c ∈ v, c ≠ '$') →
        getSubstitution matched before after v = v) ∧
    (∀ (text : List Char) (reps : RepMap),
        (∀ kv ∈ reps, ¬ marker kv.1 <:+: text) →
        applyReplacements text reps = text) := by
  refine ⟨?_, ?_, ?_, ?_, ?_⟩
  · intro ts path text reps h
    simp [processTemplate, h]
  · intro text reps
    exact applyReplacements_eq_leftmost reps text
  · intro pat rep s hpat
    exact replaceAll_eq_leftmost pat rep s hpat
  · intro matched before after v hv
    exact getSubstitution_of_no_dollar matched before after v hv
  · intro text reps h
    exact applyReplacements_of_no_occurrence text reps h

/-- Witness for the amended C3 at concrete inputs: a read template is
rendered through the loop, the scan agrees with the leftmost-occurrence
specification, a `$`-free value substitutes as itself, and a marker
whose key is not in the map survives verbatim. -/
theorem processTemplate_substitution_witness :
    processTemplate
        (fun p => if p = "t".toList then some "a//name//b".toList else none)
        "t".toList [("name".toList, some "X".toList)] =
      .ok (applyReplacements "a//name//b".toList
            [("name".toList, some "X".toList)]) ∧
    applyReplacements "a//name//b".toList [("name".toList, some "X".toList)] =
      [(("name".toList : List Char), some "X".toList)].foldl
        (fun acc kv => leftmostReplace (marker kv.1) (kv.2.getD []) acc)
        "a//name//b".toList ∧
    replaceAll "//name//".toList "X".toList "a//name//b".toList =
      leftmostReplace "//name//".toList "X".toList "a//name//b".toList ∧
    getSubstitution "//name//".toList [] [] "My Cool Mod".toList =
      "My Cool Mod".toList ∧
    applyReplacements "x//donation//y".toList
        [("name".toList, some "X".toList)] = "x//donation//y".toList := by
  refine ⟨?_, ?_, ?_, ?_, ?_⟩
  · exact processTemplate_substitution.1
      (fun p => if p = "t".toList then some "a//name//b".toList else none)
      "t".toList "a//name//b".toList [("name".toList, some "X".toList)]
      (by decide)
  · exact processTemplate_substitution.2.1 "a//name//b".toList
      [("name".toList, some "X".toList)]
  · exact processTemplate_substitution.2.2.1 "//name//".toList "X".toList
      "a//name//b".toList (by decide)
  · exact processTemplate_substitution.2.2.2.1 "//name//".toList [] []
      "My Cool Mod".toList (by decide)
  · exact processTemplate_substitution.2.2.2.2 "x//donation//y".toList
      [("name".toList, some "X".toList)] (by decide)

/-! ## Claim C5: the folder-name slug -/

/-- C5.  For every input string, the folder slug produced by
`sanitizeFolderName` contains only alphanumerics, underscores and
hyphens, and contains no whitespace (no character of the `\s` class). -/
theorem sanitizeFolderName_slug (s : List Char) :
    ∀ c ∈ sanitizeFolderName s,
      (c.isAlphanum = true ∨ c = '_' ∨ c = '-') ∧ isJsSpace c = false := by
  intro c hc
  unfold sanitizeFolderName at hc
  rw [List.mem_filter] at hc
  obtain ⟨hc1, hkeep⟩ := hc
  rw [List.mem_filter] at hc1
  obtain ⟨-, hsp⟩ := hc1
  refine ⟨?_, by simpa using hsp⟩
  simp only [isWordChar, Bool.or_eq_true, beq_iff_eq] at hkeep
  tauto

/-- Witness for C5: the slug property applied at `"Weird!! Name"` and
its member `W`. -/
theorem sanitizeFolderName_slug_witness :
    ('W'.isAlphanum = true ∨ 'W' = '_' ∨ 'W' = '-') ∧
      isJsSpace 'W' = false :=
  sanitizeFolderName_slug ("Weird!! Name".toList) 'W' (by decide)

/-! ## Claim C7: the ModInfo invariant -/

/-- C7.  Every `ModInfo` produced by the two prompt passes has a mod
type among exactly the five descriptors, and its category is present if
and only if the chosen type's descriptor has `requiresCategory` — which
holds exactly for `Action`. -/
theorem modInfo_type_and_category (a : Answers) :
    (mkModInfo a).modType ∈
      [ModType.Action, ModType.Event, ModType.Automation, ModType.Theme,
        ModType.Translation] ∧
    (mkModInfo a).modCategory.isSome =
      (MOD_TYPES (mkModInfo a).modType).requiresCategory ∧
    ((MOD_TYPES (mkModInfo a).modType).requiresCategory = true ↔
      (mkModInfo a).modType = ModType.Action) := by
  obtain ⟨n, t, d, au, don, cat⟩ := a
  cases t <;>
    simp [mkModInfo, promptForInitialInfo, promptForDetailedInfo, MOD_TYPES]

/-! ## Claim C8: loading the configuration -/

/-- C8.  `loadConfig` returns the empty configuration both when the
config file does not exist and when its content fails to parse; the
parse failure only sets the warning flag (the second component), and
every branch of `loadConfig` returns normally — no input aborts the
run. -/
theorem loadConfig_missing_or_unparsable
    (parse : List Char → Option Config) (content : List Char)
    (hbad : parse content = none) :
    loadConfig none parse = (emptyConfig, false) ∧
    loadConfig (some content) parse = (emptyConfig, true) := by
  exact ⟨rfl, by simp [loadConfig, hbad]⟩

/-- Witness for C8 at a concrete unparsable content. -/
theorem loadConfig_missing_or_unparsable_witness :
    loadConfig none (fun _ => none) = (emptyConfig, false) ∧
    loadConfig (some "not json".toList) (fun _ => none) =
      (emptyConfig, true) :=
  loadConfig_missing_or_unparsable (fun _ => none) "not json".toList rfl

/-! ## The installation probe -/

theorem findFirstExisting_eq_none (fs : List Char → Bool) :
    ∀ ps : List (List Char),
      findFirstExisting fs ps = none ↔ ∀ p ∈ ps, fs p = false := by
  intro ps
  induction ps with
  | nil => simp [findFirstExisting]
  | cons p ps ih =>
    by_cases h : fs p <;> simp [findFirstExisting, h, ih]

/-! ## Claim C1: exit status when no installation is found -/

/-- C1.  When, at the final generation step, no path of
`COMMON_BMD_PATHS` exists, the run ends with exit code 0 having written
no mod files and created no mod directories (the early `return`), unlike
a failing generation (a raised error with an installation present),
which exits with code 1. -/
theorem main_install_not_found_exit_zero (env : Env) :
    ((∀ p ∈ COMMON_BMD_PATHS, env.fsExists p = false) →
      (runMain env).exitCode = 0 ∧ (runMain env).modWrites = [] ∧
        (runMain env).modDirs = []) ∧
    (∀ bmd, findBMDInstallation env.fsExists = some bmd →
      (createMod env.tstore (mkModInfo env.answers).modType bmd
          (mkModInfo env.answers)).err.isSome = true →
      (runMain env).exitCode = 1) := by
  constructor
  · intro h
    have hn : findBMDInstallation env.fsExists = none :=
      (findFirstExisting_eq_none env.fsExists COMMON_BMD_PATHS).mpr h
    simp [runMain, hn]
  · intro bmd hb he
    simp [runMain, hb, he]

/-- Witness for C1: a machine without any of the common paths exits 0
with nothing written; a machine with an installation but unreadable
templates exits 1. -/
theorem main_install_not_found_exit_zero_witness :
    ((runMain envNoInstall).exitCode = 0 ∧
      (runMain envNoInstall).modWrites = [] ∧
      (runMain envNoInstall).modDirs = []) ∧
    (runMain envBadTemplate).exitCode = 1 := by
  constructor
  · exact (main_install_not_found_exit_zero envNoInstall).1 (by decide)
  · exact (main_install_not_found_exit_zero envBadTemplate).2
      ("C:\\Program Files (x86)\\Steam\\steamapps\\common\\Bot Maker For Discord".toList)
      (by decide) (by decide)

/-! ## Claim C2: how the installation path is resolved

`getBMDPath` implements the saved/auto-detect/interactive cascade, but
`main` never calls it: the generation step (line 592) calls
`findBMDInstallation` directly, so a saved — even existing — override is
not consulted there. -/

/-- Counterexample to C2 as stated.  On a run whose configuration holds
a saved, existing installation path, the three-branch resolution
(`getBMDPath`) would return that saved path without prompting, yet the
run uses no installation path at all — it aborts having generated
nothing, because the generation step consults only the auto-detect
probe. -/
theorem generation_ignores_saved_path :
    cfgSaved.bmdPath = some savedOnlyPath ∧
    envSaved.fsExists savedOnlyPath = true ∧
    (loadConfig envSaved.configFile envSaved.parse).1 = cfgSaved ∧
    (getBMDPath envSaved.fsExists cfgSaved []).path = savedOnlyPath ∧
    (getBMDPath envSaved.fsExists cfgSaved []).savedConfig = none ∧
    (runMain envSaved).usedPath = none ∧
    (runMain envSaved).modWrites = [] ∧
    (runMain envSaved).modDirs = [] := by
  decide

/-- C2 as amended.  `getBMDPath` resolves an installation path by three
branches in order with first success terminal — (1) a set, existing
saved path; (2) the first existing common path; (3) the prompted path,
persisted into the configuration — but the final generation step does
not invoke it: the path used for generation is exactly the auto-detect
result `findBMDInstallation`, so branches (1) and (3) never apply
there. -/
theorem getBMDPath_three_branches :
    (∀ (fs : List Char → Bool) (cfg : Config) (userPath p : List Char),
        cfg.bmdPath = some p → p ≠ [] → fs p = true →
        getBMDPath fs cfg userPath = ⟨p, none⟩) ∧
    (∀ (fs : List Char → Bool) (cfg : Config) (userPath : List Char),
        (cfg.bmdPath.getD [] = [] ∨ fs (cfg.bmdPath.getD []) = false) →
        ∀ q, findBMDInstallation fs = some q →
        getBMDPath fs cfg userPath = ⟨q, none⟩) ∧
    (∀ (fs : List Char → Bool) (cfg : Config) (userPath : List Char),
        (cfg.bmdPath.getD [] = [] ∨ fs (cfg.bmdPath.getD []) = false) →
        findBMDInstallation fs = none →
        getBMDPath fs cfg userPath =
          ⟨userPath, some { cfg with bmdPath := some userPath }⟩) ∧
    (∀ env : Env, (runMain env).usedPath = findBMDInstallation env.fsExists) := by
  refine ⟨?_, ?_, ?_, ?_⟩
  · intro fs cfg userPath p hp hne hfs
    simp [getBMDPath, hp, hne, hfs]
  · intro fs cfg userPath hsaved q hq
    have hcond : ¬ (cfg.bmdPath.getD [] ≠ [] ∧ fs (cfg.bmdPath.getD []) = true) := by
      rcases hsaved with h | h
      · exact fun hc => hc.1 h
      · exact fun hc => by rw [h] at hc; exact Bool.false_ne_true hc.2
    simp only [getBMDPath, hq]
    rw [if_neg (by simpa using hcond)]
  · intro fs cfg userPath hsaved hq
    have hcond : ¬ (cfg.bmdPath.getD [] ≠ [] ∧ fs (cfg.bmdPath.getD []) = true) := by
      rcases hsaved with h | h
      · exact fun hc => hc.1 h
      · exact fun hc => by rw [h] at hc; exact Bool.false_ne_true hc.2
    simp only [getBMDPath, hq]
    rw [if_neg (by simpa using hcond)]
  · intro env
    unfold runMain
    cases h : findBMDInstallation env.fsExists <;> simp [h]

/-- Witness for the amended C2: each branch applied at a concrete
input, and the generation-path equation on a concrete run. -/
theorem getBMDPath_three_branches_witness :
    getBMDPath (fun _ => true) cfgSaved [] = ⟨savedOnlyPath, none⟩ ∧
    getBMDPath (fun _ => true) emptyConfig [] =
      ⟨"C:\\Program Files (x86)\\Steam\\steamapps\\common\\Bot Maker For Discord".toList,
        none⟩ ∧
    getBMDPath (fun _ => false) emptyConfig "E:\\BMD".toList =
      ⟨"E:\\BMD".toList, some ⟨some "E:\\BMD".toList, none, none⟩⟩ ∧
    (runMain envNoInstall).usedPath = findBMDInstallation envNoInstall.fsExists := by
  refine ⟨?_, ?_, ?_, ?_⟩
  · exact getBMDPath_three_branches.1 (fun _ => true) cfgSaved []
      savedOnlyPath (by decide) (by decide) (by decide)
  · exact getBMDPath_three_branches.2.1 (fun _ => true) emptyConfig []
      (by decide) _ (by decide)
  · exact getBMDPath_three_branches.2.2.1 (fun _ => false) emptyConfig
      "E:\\BMD".toList (by decide) (by decide)
  · exact getBMDPath_three_branches.2.2.2 envNoInstall

/-! ## Claim C10: the configuration is saved before detection -/

/-- C10.  On every run the configuration's `author` and `donation` keys
are overwritten with the freshly entered answers and the result is the
(single) configuration write of the run — independently of the outcome
of installation detection; in particular, on a run that aborts because
no installation is found, the configuration write has still happened
while no mod file was written. -/
theorem config_saved_before_detection (env : Env) :
    (runMain env).configWrites =
      [{ (loadConfig env.configFile env.parse).1 with
          author := some (mkModInfo env.answers).modAuthor,
          donation := some (mkModInfo env.answers).modDonation }] ∧
    ((∀ p ∈ COMMON_BMD_PATHS, env.fsExists p = false) →
      (runMain env).modWrites = [] ∧ (runMain env).modDirs = []) := by
  constructor
  · unfold runMain
    cases h : findBMDInstallation env.fsExists <;> simp [h]
  · intro h
    have hn : findBMDInstallation env.fsExists = none :=
      (findFirstExisting_eq_none env.fsExists COMMON_BMD_PATHS).mpr h
    simp [runMain, hn]

/-- Witness for C10 on the no-installation run: the config write carries
the fresh author/donation answers although nothing was generated. -/
theorem config_saved_before_detection_witness :
    (runMain envNoInstall).configWrites =
      [{ (loadConfig envNoInstall.configFile envNoInstall.parse).1 with
          author := some (mkModInfo envNoInstall.answers).modAuthor,
          donation := some (mkModInfo envNoInstall.answers).modDonation }] ∧
    (runMain envNoInstall).modWrites = [] ∧
    (runMain envNoInstall).modDirs = [] :=
  ⟨(config_saved_before_detection envNoInstall).1,
    (config_saved_before_detection envNoInstall).2 (by decide)⟩

/-! ## Claim C9: folder mod types with an empty slug -/

theorem pathJoin_empty_last (a b : List Char) :
    pathJoin [a, b, []] = pathJoin [a, b] := by
  unfold pathJoin
  rw [show ([a, b, ([] : List Char)]) = [a, b] ++ [[]] from rfl,
    List.filter_append]
  simp [List.filter]

/-- Every file the `forEach` template loop writes lands at
`out/<template file name>`. -/
theorem processTemplateList_paths (ts : TemplateStore) (out : List Char)
    (reps : RepMap) :
    ∀ l : List (List Char × List Char),
      ∀ w ∈ (processTemplateList ts out reps l).1,
        ∃ ft ∈ l, w.1 = pathJoin [out, ft.1] := by
  intro l
  induction l with
  | nil => intro w hw; simp [processTemplateList] at hw
  | cons ft rest ih =>
    obtain ⟨fname, tpl⟩ := ft
    intro w hw
    rcases hpt : processTemplate ts (pathJoin ["templates".toList, tpl]) reps
      with e | content
    · rw [processTemplateList, hpt] at hw
      simp at hw
    · rw [processTemplateList, hpt] at hw
      rcases List.mem_cons.mp hw with hw | hw
      · exact ⟨(fname, tpl), List.mem_cons_self _ _, by rw [hw]⟩
      · obtain ⟨ft', hft', hp⟩ := ih w hw
        exact ⟨ft', List.mem_cons_of_mem _ hft', hp⟩

/-- C9.  For a mod name made entirely of whitespace and characters that
are neither alphanumeric, underscore nor hyphen, the slug is empty, so
the folder-based mod types create no dedicated subfolder — the created
directory is the type's output directory itself — and every file write
of those types lands directly in that output directory. -/
theorem folder_mods_empty_slug (name : List Char)
    (h : ∀ c ∈ name, isJsSpace c = true ∨
        (c.isAlphanum = false ∧ c ≠ '_' ∧ c ≠ '-')) :
    sanitizeFolderName name = [] ∧
    (∀ (ts : TemplateStore) (bmd : List Char) (mi : ModInfo),
      mi.modName = name →
      (createAutomationMod ts bmd mi).dirs =
        [pathJoin [bmd, "Automations".toList]] ∧
      (∀ w ∈ (createAutomationMod ts bmd mi).files,
        ∃ ft ∈ automationTemplates,
          w.1 = pathJoin [pathJoin [bmd, "Automations".toList], ft.1]) ∧
      (createThemeMod ts bmd mi).dirs = [pathJoin [bmd, "Themes".toList]] ∧
      (∀ w ∈ (createThemeMod ts bmd mi).files,
        w.1 = pathJoin [pathJoin [bmd, "Themes".toList], "data.json".toList] ∨
        w.1 = pathJoin [pathJoin [bmd, "Themes".toList], "theme.css".toList]) ∧
      (createTranslationMod ts bmd mi).dirs =
        [pathJoin [bmd, "Translations".toList]] ∧
      (∀ w ∈ (createTranslationMod ts bmd mi).files,
        w.1 = pathJoin [pathJoin [bmd, "Translations".toList],
                "data.json".toList] ∨
        w.1 = pathJoin [pathJoin [bmd, "Translations".toList],
                "strings.json".toList])) := by
  have hslug : sanitizeFolderName name = [] := by
    unfold sanitizeFolderName
    rw [List.filter_eq_nil_iff]
    intro c hc
    rw [List.mem_filter] at hc
    obtain ⟨hcm, hns⟩ := hc
    rcases h c hcm with hsp | ⟨ha, hu, hh⟩
    · rw [hsp] at hns; simp at hns
    · simp [isWordChar, ha, hu, hh]
  refine ⟨hslug, ?_⟩
  intro ts bmd mi hmi
  have hout : ∀ sub : List Char,
      pathJoin [bmd, sub, sanitizeFolderName mi.modName] = pathJoin [bmd, sub] := by
    intro sub
    rw [hmi, hslug]
    exact pathJoin_empty_last bmd sub
  refine ⟨?_, ?_, ?_, ?_, ?_, ?_⟩
  · show [pathJoin [bmd, "Automations".toList, sanitizeFolderName mi.modName]] = _
    rw [hout]
  · intro w hw
    have := processTemplateList_paths ts
      (pathJoin [bmd, "Automations".toList, sanitizeFolderName mi.modName])
      (folderModReplacements mi) automationTemplates w hw
    rwa [hout] at this
  · unfold createThemeMod
    dsimp only
    split
    · exact congrArg (fun x => [x]) (hout _)
    · split <;> exact congrArg (fun x => [x]) (hout _)
  · intro w hw
    unfold createThemeMod at hw
    dsimp only at hw
    split at hw
    · simp at hw
    · split at hw
      · simp at hw
      · simp only [List.mem_cons, List.not_mem_nil, or_false] at hw
        rcases hw with hw | hw <;> subst hw <;> [left; right] <;>
          exact congrArg (fun x => pathJoin [x, _]) (hout _)
  · unfold createTranslationMod
    dsimp only
    split
    · exact congrArg (fun x => [x]) (hout _)
    · split <;> exact congrArg (fun x => [x]) (hout _)
  · intro w hw
    unfold createTranslationMod at hw
    dsimp only at hw
    split at hw
    · simp at hw
    · split at hw
      · simp at hw
      · simp only [List.mem_cons, List.not_mem_nil, or_false] at hw
        rcases hw with hw | hw <;> subst hw <;> [left; right] <;>
          exact congrArg (fun x => pathJoin [x, _]) (hout _)

/-- Witness for C9 at the concrete name `"!!!"`. -/
theorem folder_mods_empty_slug_witness :
    sanitizeFolderName "!!!".toList = [] ∧
    (createAutomationMod (fun _ => some []) "C:\\BMD".toList modInfoBang).dirs =
      [pathJoin ["C:\\BMD".toList, "Automations".toList]] ∧
    (createThemeMod (fun _ => some []) "C:\\BMD".toList modInfoBang).dirs =
      [pathJoin ["C:\\BMD".toList, "Themes".toList]] := by
  have h := folder_mods_empty_slug ("!!!".toList) (by decide)
  have h2 := h.2 (fun _ => some []) "C:\\BMD".toList modInfoBang rfl
  exact ⟨h.1, h2.1, h2.2.2.1⟩

/-! ## Claim C6: the worked Action example -/

theorem containsSeq_iff (pat : List Char) :
    ∀ s, containsSeq pat s = true ↔ pat <:+: s := by
  intro s
  induction s with
  | nil =>
    simp only [containsSeq, List.isEmpty_iff]
    exact ⟨fun h => h ▸ List.infix_refl [], fun h => List.eq_nil_of_infix_nil h⟩
  | cons c cs ih =>
    simp only [containsSeq, Bool.or_eq_true, List.isPrefixOf_iff_prefix, ih]
    constructor
    · rintro (h | h)
      · exact List.IsPrefix.isInfix h
      · exact List.infix_cons h
    · intro h
      rcases List.infix_cons_iff.mp h with h | h
      · exact Or.inl h
      · exact Or.inr h

theorem pathJoin_three (a b c : List Char) (ha : a ≠ []) (hb : b ≠ [])
    (hc : c ≠ []) : pathJoin [a, b, c] = a ++ '/' :: (b ++ '/' :: c) := by
  unfold pathJoin
  have hf : [a, b, c].filter (fun s => ! s.isEmpty) = [a, b, c] := by
    simp only [List.filter_cons, List.filter_nil]
    simp [List.isEmpty_eq_false, ha, hb, hc]
  rw [hf]
  simp [joinSep, List.append_assoc]

/-- C6.  For mod name `"My Cool Mod"`, type `Action`, author `"Alex"`,
description `"desc"`, category `"Message"`, donation `""`, against the
bundled Action template: the single generated file is
`myCoolMod_MOD.js` inside `AppData/Actions` under the installation
root, and its content is exactly the Action template with the
substitutions performed (`actionRenderedC6`) — which contains
`"My Cool Mod"` and retains no name or donation marker. -/
theorem createActionMod_myCoolMod (bmd : List Char) (h : bmd ≠ []) :
    createActionMod actionOnlyStore bmd (mkModInfo answersC6) =
      ⟨[], [(bmd ++ "/AppData/Actions/myCoolMod_MOD.js".toList,
              actionRenderedC6)], none⟩ ∧
    "My Cool Mod".toList <:+: actionRenderedC6 ∧
    ¬ marker "name".toList <:+: actionRenderedC6 ∧
    ¬ marker "donation".toList <:+: actionRenderedC6 := by
  refine ⟨?_, by decide, ?_, ?_⟩
  case refine_2 =>
    intro hi
    rw [← containsSeq_iff] at hi
    revert hi
    decide
  case refine_3 =>
    intro hi
    rw [← containsSeq_iff] at hi
    revert hi
    decide
  have hcontent : processTemplate actionOnlyStore
      (pathJoin ["templates".toList, "Action.js".toList])
      [("name".toList, some (mkModInfo answersC6).modName),
       ("author".toList, some (mkModInfo answersC6).modAuthor),
       ("description".toList, some (mkModInfo answersC6).modDescription),
       ("category".toList, (mkModInfo answersC6).modCategory),
       ("donation".toList, some (mkModInfo answersC6).modDonation)] =
      .ok actionRenderedC6 := by
    unfold processTemplate
    rw [show actionOnlyStore (pathJoin ["templates".toList, "Action.js".toList]) =
      some actionTemplate from rfl]
    exact congrArg Except.ok (by decide)
  unfold createActionMod
  dsimp only
  rw [hcontent]
  have hfile : toCamelCase (mkModInfo answersC6).modName ++ "_MOD.js".toList =
      "myCoolMod_MOD.js".toList := by decide
  rw [hfile, show (MOD_TYPES ModType.Action).outputPath =
      "AppData/Actions".toList from rfl,
    pathJoin_three bmd _ _ h (by decide) (by decide),
    show ('/' :: ("AppData/Actions".toList ++
        '/' :: "myCoolMod_MOD.js".toList)) =
      "/AppData/Actions/myCoolMod_MOD.js".toList from by decide]

/-- Witness for C6 at a concrete installation root. -/
theorem createActionMod_myCoolMod_witness :
    createActionMod actionOnlyStore "C:\\BMD root".toList
        (mkModInfo answersC6) =
      ⟨[], [("C:\\BMD root".toList ++
              "/AppData/Actions/myCoolMod_MOD.js".toList,
              actionRenderedC6)], none⟩ ∧
    "My Cool Mod".toList <:+: actionRenderedC6 ∧
    ¬ marker "name".toList <:+: actionRenderedC6 ∧
    ¬ marker "donation".toList <:+: actionRenderedC6 :=
  createActionMod_myCoolMod ("C:\\BMD root".toList) (by decide)

/-! ## Claim C4: camel-casing

Character-class facts about `Char.toLower` / `Char.toUpper` (which are
exactly the ASCII case maps, as are JavaScript's on the characters whose
class the claim constrains), expressed on code points. -/

theorem uInt32_le_iff_toNat (a b : UInt32) : a ≤ b ↔ a.toNat ≤ b.toNat := by
  simp [UInt32.le_def, BitVec.le_def, UInt32.toNat]

theorem char_toNat_ofNat {n : Nat} (h : n.isValidChar) :
    (Char.ofNat n).toNat = n := by
  simp [Char.ofNat, h, Char.ofNatAux, Char.toNat, UInt32.toNat]

theorem char_eq_iff_toNat {c d : Char} : c = d ↔ c.toNat = d.toNat := by
  constructor
  · intro h; rw [h]
  · intro h
    apply Char.eq_of_val_eq
    apply UInt32.eq_of_toBitVec_eq
    exact BitVec.eq_of_toNat_eq h

theorem isUpper_iff (c : Char) :
    c.isUpper = true ↔ 65 ≤ c.toNat ∧ c.toNat ≤ 90 := by
  simp only [Char.isUpper, Bool.and_eq_true, decide_eq_true_eq, ge_iff_le]
  rw [uInt32_le_iff_toNat, uInt32_le_iff_toNat]
  exact Iff.rfl

theorem isLower_iff (c : Char) :
    c.isLower = true ↔ 97 ≤ c.toNat ∧ c.toNat ≤ 122 := by
  simp only [Char.isLower, Bool.and_eq_true, decide_eq_true_eq, ge_iff_le]
  rw [uInt32_le_iff_toNat, uInt32_le_iff_toNat]
  exact Iff.rfl

theorem isAlpha_iff (c : Char) :
    c.isAlpha = true ↔
      (65 ≤ c.toNat ∧ c.toNat ≤ 90) ∨ (97 ≤ c.toNat ∧ c.toNat ≤ 122) := by
  simp [Char.isAlpha, isUpper_iff, isLower_iff]

theorem toLower_toNat (c : Char) :
    (Char.toLower c).toNat =
      if 65 ≤ c.toNat ∧ c.toNat ≤ 90 then c.toNat + 32 else c.toNat := by
  unfold Char.toLower
  by_cases h : 65 ≤ c.toNat ∧ c.toNat ≤ 90
  · rw [if_pos h, if_pos ⟨h.1, h.2⟩]
    exact char_toNat_ofNat (Or.inl (by omega))
  · rw [if_neg h, if_neg h]

theorem toUpper_toNat (c : Char) :
    (Char.toUpper c).toNat =
      if 97 ≤ c.toNat ∧ c.toNat ≤ 122 then c.toNat - 32 else c.toNat := by
  unfold Char.toUpper
  by_cases h : 97 ≤ c.toNat ∧ c.toNat ≤ 122
  · rw [if_pos h, if_pos ⟨h.1, h.2⟩]
    exact char_toNat_ofNat (Or.inl (by omega))
  · rw [if_neg h, if_neg h]

theorem toLower_not_upper (c : Char) : (Char.toLower c).isUpper = false := by
  rw [Bool.eq_false_iff, Ne, isUpper_iff, toLower_toNat]
  by_cases h : 65 ≤ c.toNat ∧ c.toNat ≤ 90
  · rw [if_pos h]; omega
  · rw [if_neg h]; omega

theorem toLower_alpha_lower (c : Char)
    (ha : (Char.toLower c).isAlpha = true) :
    (Char.toLower c).isLower = true := by
  rw [isAlpha_iff, toLower_toNat] at ha
  rw [isLower_iff, toLower_toNat]
  by_cases h : 65 ≤ c.toNat ∧ c.toNat ≤ 90
  · rw [if_pos h] at ha ⊢; omega
  · rw [if_neg h] at ha ⊢; omega

theorem toUpper_not_lower (c : Char) : (Char.toUpper c).isLower = false := by
  rw [Bool.eq_false_iff, Ne, isLower_iff, toUpper_toNat]
  by_cases h : 97 ≤ c.toNat ∧ c.toNat ≤ 122
  · rw [if_pos h]; omega
  · rw [if_neg h]; omega

theorem toUpper_alpha_upper (c : Char)
    (ha : (Char.toUpper c).isAlpha = true) :
    (Char.toUpper c).isUpper = true := by
  rw [isAlpha_iff, toUpper_toNat] at ha
  rw [isUpper_iff, toUpper_toNat]
  by_cases h : 97 ≤ c.toNat ∧ c.toNat ≤ 122
  · rw [if_pos h] at ha ⊢; omega
  · rw [if_neg h] at ha ⊢; omega

theorem isJsSpace_iff (c : Char) :
    isJsSpace c = true ↔
      (c.toNat = 9 ∨ c.toNat = 10 ∨ c.toNat = 11 ∨ c.toNat = 12 ∨
        c.toNat = 13 ∨ c.toNat = 32 ∨ c.toNat = 160 ∨ c.toNat = 5760 ∨
        (8192 ≤ c.toNat ∧ c.toNat ≤ 8202) ∨ c.toNat = 8232 ∨
        c.toNat = 8233 ∨ c.toNat = 8239 ∨ c.toNat = 8287 ∨
        c.toNat = 12288 ∨ c.toNat = 65279) := by
  simp [isJsSpace, or_assoc]

theorem isSepChar_iff (c : Char) :
    isSepChar c = true ↔
      isJsSpace c = true ∨ c.toNat = 45 ∨ c.toNat = 95 := by
  have h45 : (c == '-') = true ↔ c.toNat = 45 := by
    rw [beq_iff_eq, char_eq_iff_toNat]
    exact Iff.rfl
  have h95 : (c == '_') = true ↔ c.toNat = 95 := by
    rw [beq_iff_eq, char_eq_iff_toNat]
    exact Iff.rfl
  simp [isSepChar, h45, h95, or_assoc]

theorem toLower_not_sep (c : Char) (h : isSepChar c = false) :
    isSepChar (Char.toLower c) = false := by
  rw [Bool.eq_false_iff, Ne, isSepChar_iff, isJsSpace_iff] at h ⊢
  rw [toLower_toNat]
  by_cases hc : 65 ≤ c.toNat ∧ c.toNat ≤ 90
  · rw [if_pos hc]; omega
  · rw [if_neg hc]; exact h

theorem toUpper_not_sep (c : Char) (h : isSepChar c = false) :
    isSepChar (Char.toUpper c) = false := by
  rw [Bool.eq_false_iff, Ne, isSepChar_iff, isJsSpace_iff] at h ⊢
  rw [toUpper_toNat]
  by_cases hc : 97 ≤ c.toNat ∧ c.toNat ≤ 122
  · rw [if_pos hc]; omega
  · rw [if_neg hc]; exact h

/-! Structure of the split. -/

theorem splitRunsAux_ne_nil (p : Char → Bool) :
    ∀ (f : Nat) (s : List Char), splitRunsAux p f s ≠ [] := by
  intro f
  induction f with
  | zero => intro s; cases s <;> simp [splitRunsAux]
  | succ f ih =>
    intro s
    cases s with
    | nil => simp [splitRunsAux]
    | cons c cs =>
      by_cases h : p c
      · simp [splitRunsAux, h]
      · simp only [splitRunsAux, if_neg h]
        cases hr : splitRunsAux p f cs with
        | nil => exact absurd hr (ih cs)
        | cons w ws => simp [List.modifyHead]

theorem splitRuns_ne_nil (p : Char → Bool) (s : List Char) :
    splitRuns p s ≠ [] :=
  splitRunsAux_ne_nil p s.length s

/-- No piece of the split contains a separator character. -/
theorem splitRunsAux_no_sep (p : Char → Bool) :
    ∀ (f : Nat) (s : List Char), ∀ w ∈ splitRunsAux p f s, ∀ c ∈ w,
      p c = false := by
  intro f
  induction f with
  | zero =>
    intro s w hw c hc
    cases s <;> simp [splitRunsAux] at hw <;> subst hw <;> simp at hc
  | succ f ih =>
    intro s w hw c hc
    cases s with
    | nil =>
      simp [splitRunsAux] at hw
      subst hw; simp at hc
    | cons a cs =>
      by_cases h : p a
      · rw [splitRunsAux, if_pos h] at hw
        rcases List.mem_cons.mp hw with hw | hw
        · subst hw; simp at hc
        · exact ih (cs.dropWhile p) w hw c hc
      · rw [splitRunsAux, if_neg h] at hw
        cases hr : splitRunsAux p f cs with
        | nil => exact absurd hr (splitRunsAux_ne_nil p f cs)
        | cons w0 ws =>
          rw [hr] at hw
          rcases List.mem_cons.mp hw with hw | hw
          · subst hw
            rcases List.mem_cons.mp hc with hc | hc
            · subst hc; exact Bool.eq_false_iff.mpr h
            · exact ih cs w0 (hr ▸ List.mem_cons_self w0 ws) c hc
          · exact ih cs w (hr ▸ List.mem_cons_of_mem w0 hw) c hc

theorem splitRuns_no_sep (p : Char → Bool) (s : List Char) :
    ∀ w ∈ splitRuns p s, ∀ c ∈ w, p c = false :=
  splitRunsAux_no_sep p s.length s

/-! Tracing split characters back to the input, and agreement of the
ASCII case maps with the JavaScript ones on ASCII input. -/

theorem jsTrim_subset (s : List Char) : ∀ c ∈ jsTrim s, c ∈ s := by
  intro c hc
  unfold jsTrim at hc
  rw [List.mem_reverse] at hc
  have h1 := (List.dropWhile_sublist isJsSpace
    (l := (s.dropWhile isJsSpace).reverse)).subset hc
  rw [List.mem_reverse] at h1
  exact (List.dropWhile_sublist isJsSpace (l := s)).subset h1

/-- Every character of every split piece comes from the input. -/
theorem splitRunsAux_subset (p : Char → Bool) :
    ∀ (f : Nat) (s : List Char), ∀ w ∈ splitRunsAux p f s, ∀ c ∈ w,
      c ∈ s := by
  intro f
  induction f with
  | zero =>
    intro s w hw c hc
    cases s <;> simp [splitRunsAux] at hw <;> subst hw <;> simp at hc
  | succ f ih =>
    intro s w hw c hc
    cases s with
    | nil =>
      simp [splitRunsAux] at hw
      subst hw; simp at hc
    | cons a cs =>
      by_cases h : p a
      · rw [splitRunsAux, if_pos h] at hw
        rcases List.mem_cons.mp hw with hw | hw
        · subst hw; simp at hc
        · exact List.mem_cons_of_mem a
            ((List.dropWhile_sublist p (l := cs)).subset
              (ih (cs.dropWhile p) w hw c hc))
      · rw [splitRunsAux, if_neg h] at hw
        cases hr : splitRunsAux p f cs with
        | nil => exact absurd hr (splitRunsAux_ne_nil p f cs)
        | cons w0 ws =>
          rw [hr] at hw
          rcases List.mem_cons.mp hw with hw | hw
          · subst hw
            rcases List.mem_cons.mp hc with hc | hc
            · subst hc; exact List.mem_cons_self c cs
            · exact List.mem_cons_of_mem a
                (ih cs w0 (hr ▸ List.mem_cons_self w0 ws) c hc)
          · exact List.mem_cons_of_mem a
              (ih cs w (hr ▸ List.mem_cons_of_mem w0 hw) c hc)

theorem splitRuns_subset (p : Char → Bool) (s : List Char) :
    ∀ w ∈ splitRuns p s, ∀ c ∈ w, c ∈ s :=
  splitRunsAux_subset p s.length s

theorem toLower_ascii (c : Char) (h : c.toNat ≤ 127) :
    (Char.toLower c).toNat ≤ 127 := by
  rw [toLower_toNat]
  by_cases hc : 65 ≤ c.toNat ∧ c.toNat ≤ 90
  · rw [if_pos hc]; omega
  · rw [if_neg hc]; omega

theorem jsLowerChar_ascii (c : Char) (h : c.toNat ≤ 127) :
    jsLowerChar c = [Char.toLower c] := by
  unfold jsLowerChar
  rw [if_neg (by omega)]

theorem jsUpperChar_ascii (c : Char) (h : c.toNat ≤ 127) :
    jsUpperChar c = [Char.toUpper c] := by
  unfold jsUpperChar
  rw [if_neg (by omega), if_neg (by omega), if_neg (by omega),
    if_neg (by omega)]

theorem jsLowerString_ascii (w : List Char) (h : ∀ c ∈ w, c.toNat ≤ 127) :
    jsLowerString w = w.map Char.toLower := by
  induction w with
  | nil => rfl
  | cons c w2 ih =>
    show jsLowerChar c ++ jsLowerString w2 =
      Char.toLower c :: w2.map Char.toLower
    rw [jsLowerChar_ascii c (h c (List.mem_cons_self c w2)),
      ih (fun d hd => h d (List.mem_cons_of_mem c hd))]
    rfl

/-- On ASCII input the embedded `toCamelCase` is exactly the
JavaScript computation. -/
theorem toCamelCaseJS_eq_toCamelCase (s : List Char)
    (hascii : ∀ c ∈ s, c.toNat ≤ 127) :
    toCamelCaseJS s = toCamelCase s := by
  unfold toCamelCaseJS toCamelCase
  cases hsp : splitRuns isSepChar (jsTrim s) with
  | nil => rfl
  | cons w rest =>
    have hws : ∀ u ∈ w :: rest, ∀ c ∈ u, c.toNat ≤ 127 := by
      intro u hu c hc
      exact hascii c (jsTrim_subset s c
        (splitRuns_subset isSepChar (jsTrim s) u (hsp ▸ hu) c hc))
    dsimp only
    rw [jsLowerString_ascii w (hws w (List.mem_cons_self w rest))]
    congr 1
    congr 1
    apply List.map_congr_left
    intro u hu
    have hu2 : ∀ c ∈ u, c.toNat ≤ 127 := hws u (List.mem_cons_of_mem w hu)
    rw [jsLowerString_ascii u hu2]
    cases u with
    | nil => rfl
    | cons a u2 =>
      show jsUpperChar (Char.toLower a) ++ u2.map Char.toLower =
        Char.toUpper (Char.toLower a) :: u2.map Char.toLower
      rw [jsUpperChar_ascii (Char.toLower a)
        (toLower_ascii a (hu2 a (List.mem_cons_self a u2)))]
      rfl

/-! ## Claim C4: camel-casing, settled -/

/-- Counterexample to C4 as stated.  JavaScript case conversion is the
Unicode full case mapping: uppercasing `ß` (U+00DF) expands to `"SS"`,
so on the input `"a ßx"` the program outputs `"aSSx"` — its single
later word is `"SSx"`, whose remainder `"Sx"` contains the uppercase
letter `S`, violating the claimed "remainder lowercase" shape. -/
theorem camelCase_unicode_counterexample :
    toCamelCaseJS "a ßx".toList = "aSSx".toList ∧
    splitRuns isSepChar (jsTrim "a ßx".toList) = ["a".toList, "ßx".toList] ∧
    capitalizeWordJS (jsLowerString "ßx".toList) = "SSx".toList ∧
    ¬ (∀ d ∈ ("SSx".toList).tail, d.isUpper = false) := by
  refine ⟨by decide, by decide, by decide, by decide⟩

/-- C4 (amended).  For every non-empty input of ASCII characters — on
which the embedded ASCII case maps coincide with JavaScript's Unicode
ones, which the first conjunct proves (`toCamelCaseJS` agrees with
`toCamelCase`) — the camel-cased derivation concatenates, with no
separator characters surviving, a list of words: the first is entirely
lowercase (no uppercase character; every letter lowercase), and every
later word has an uppercase-mapped first character (never lowercase;
uppercase whenever it is a letter) with the remainder lowercase.
Beyond ASCII the shape fails on the program
(`camelCase_unicode_counterexample`). -/
theorem toCamelCase_shape (s : List Char) (hs : s ≠ [])
    (hascii : ∀ c ∈ s, c.toNat ≤ 127) :
    toCamelCaseJS s = toCamelCase s ∧
    ∃ ws : List (List Char),
      toCamelCase s = ws.flatten ∧ ws ≠ [] ∧
      (∀ w ∈ ws, ∀ c ∈ w, isSepChar c = false) ∧
      (∀ w, ws.head? = some w → ∀ c ∈ w,
        c.isUpper = false ∧ (c.isAlpha = true → c.isLower = true)) ∧
      (∀ w ∈ ws.tail, ∀ (c : Char) (cs2 : List Char), w = c :: cs2 →
        (c.isLower = false ∧ (c.isAlpha = true → c.isUpper = true)) ∧
        ∀ d ∈ cs2, d.isUpper = false ∧ (d.isAlpha = true → d.isLower = true)) := by
  refine ⟨toCamelCaseJS_eq_toCamelCase s hascii, ?_⟩
  obtain ⟨w, rest, hsp⟩ : ∃ w rest,
      splitRuns isSepChar (jsTrim s) = w :: rest := by
    cases h : splitRuns isSepChar (jsTrim s) with
    | nil => exact absurd h (splitRuns_ne_nil _ _)
    | cons w rest => exact ⟨w, rest, rfl⟩
  refine ⟨w.map Char.toLower ::
    rest.map (fun u => capitalizeWord (u.map Char.toLower)),
    ?_, by simp, ?_, ?_, ?_⟩
  · unfold toCamelCase
    rw [hsp, List.flatten_cons]
  · intro w2 hw2 c hc
    rcases List.mem_cons.mp hw2 with hw2 | hw2
    · subst hw2
      obtain ⟨c0, hc0, rfl⟩ := List.mem_map.mp hc
      exact toLower_not_sep c0
        (splitRuns_no_sep isSepChar (jsTrim s) w
          (hsp ▸ List.mem_cons_self w rest) c0 hc0)
    · obtain ⟨u, hu, rfl⟩ := List.mem_map.mp hw2
      have humem : u ∈ splitRuns isSepChar (jsTrim s) :=
        hsp ▸ List.mem_cons_of_mem w hu
      cases u with
      | nil => simp [capitalizeWord] at hc
      | cons a u2 =>
        rw [List.map_cons, capitalizeWord] at hc
        rcases List.mem_cons.mp hc with hc | hc
        · subst hc
          exact toUpper_not_sep _ (toLower_not_sep a
            (splitRuns_no_sep isSepChar (jsTrim s) _ humem a
              (List.mem_cons_self a u2)))
        · obtain ⟨d, hd, rfl⟩ := List.mem_map.mp hc
          exact toLower_not_sep d
            (splitRuns_no_sep isSepChar (jsTrim s) _ humem d
              (List.mem_cons_of_mem a hd))
  · intro w2 hw2 c hc
    rw [List.head?_cons, Option.some_inj] at hw2
    subst hw2
    obtain ⟨c0, hc0, rfl⟩ := List.mem_map.mp hc
    exact ⟨toLower_not_upper c0, toLower_alpha_lower c0⟩
  · intro w2 hw2 c cs2 hw2eq
    rw [List.tail_cons] at hw2
    obtain ⟨u, hu, rfl⟩ := List.mem_map.mp hw2
    cases u with
    | nil => simp [capitalizeWord] at hw2eq
    | cons a u2 =>
      rw [List.map_cons, capitalizeWord] at hw2eq
      injection hw2eq with h1 h2
      subst h1
      subst h2
      refine ⟨⟨toUpper_not_lower _, toUpper_alpha_upper _⟩, ?_⟩
      intro d hd
      obtain ⟨d0, hd0, rfl⟩ := List.mem_map.mp hd
      exact ⟨toLower_not_upper d0, toLower_alpha_lower d0⟩

/-- Witness for the amended C4 at the concrete ASCII input
`"My Cool Mod"`. -/
theorem toCamelCase_shape_witness :
    toCamelCaseJS "My Cool Mod".toList = toCamelCase "My Cool Mod".toList ∧
    ∃ ws : List (List Char),
      toCamelCase "My Cool Mod".toList = ws.flatten ∧ ws ≠ [] ∧
      (∀ w ∈ ws, ∀ c ∈ w, isSepChar c = false) ∧
      (∀ w, ws.head? = some w → ∀ c ∈ w,
        c.isUpper = false ∧ (c.isAlpha = true → c.isLower = true)) ∧
      (∀ w ∈ ws.tail, ∀ (c : Char) (cs2 : List Char), w = c :: cs2 →
        (c.isLower = false ∧ (c.isAlpha = true → c.isUpper = true)) ∧
        ∀ d ∈ cs2, d.isUpper = false ∧ (d.isAlpha = true → d.isLower = true)) :=
  toCamelCase_shape ("My Cool Mod".toList) (by decide) (by decide)

end CreateBMD
